import Mathlib

/-!
Verification of `bigflow/build/pip.py`: requirements compilation, content
hashing with transitive `-r` includes, staleness detection, lock-file
reading, and the incremental pin-discovery loop.

The filesystem is modelled as a partial map from path strings to file
contents.  Python string operations (`str.strip`, `str.split`,
`str.replace`, `str.startswith`, substring membership, and the include
regex `\s*-r\s+(.*)` used by `re.findall`) are modelled at the character
level.  The SHA-256 digest is an external library routine; it enters the
model as an abstract parameter `hashFn : String -> String` standing for
the hex digest of the UTF-8 encoding of its input, so that theorems state
exactly what the code concatenates and feeds to the digest.  Recursions
that walk the include graph take an explicit fuel argument: the Python
code has no cycle guard and diverges (stack exhaustion) on cyclic
includes, which the model maps to a `recursionLimit` error.
-/

/-- Python `str` whitespace characters, as matched by `str.strip()` and by
`\s` in the include-scanning regex (ASCII fragment). -/
def isPyWs (c : Char) : Bool :=
  c = ' ' || c = '\t' || c = '\n' || c = '\r' || c = '\x0b' || c = '\x0c'

/-- Python `s.strip()` on a character list: drop whitespace from both ends. -/
def pyStripCh (l : List Char) : List Char :=
  ((l.dropWhile isPyWs).reverse.dropWhile isPyWs).reverse

/-- Python `s.split("#", 1)[0]` on a character list: keep everything before
the first `#`. -/
def beforeHashCh (l : List Char) : List Char :=
  l.takeWhile (fun ch => ch != '#')

/-- Python `pre + rest == s` test, i.e. `s.startswith(pre)`. -/
def strStartsWithCh (pre s : List Char) : Bool :=
  pre.isPrefixOf s

/-- Fuel-bounded core of Python `s.replace(pat, rep)`: replace every
non-overlapping occurrence of `pat`, scanning left to right.  Fuel equal to
the length of the list is always sufficient when `pat` is nonempty. -/
def pyReplaceGo (pat rep : List Char) : Nat → List Char → List Char
  | 0, s => s
  | _ + 1, [] => []
  | fuel + 1, c :: cs =>
    if pat.isPrefixOf (c :: cs) then
      rep ++ pyReplaceGo pat rep fuel ((c :: cs).drop pat.length)
    else
      c :: pyReplaceGo pat rep fuel cs

/-- Python `s.replace(pat, rep)` for a nonempty pattern. -/
def pyReplaceCh (pat rep s : List Char) : List Char :=
  pyReplaceGo pat rep s.length s

/-- Split a character list at every newline, like iterating a Python text
file line by line (the trailing newline of each line is consumed). -/
def splitOnNl : List Char → List (List Char)
  | [] => [[]]
  | c :: cs =>
    if c = '\n' then
      [] :: splitOnNl cs
    else
      match splitOnNl cs with
      | [] => [[c]]
      | l :: ls => (c :: l) :: ls

/-- Substring test on character lists: Python `needle in hay`. -/
def containsSubCh (needle : List Char) : List Char → Bool
  | [] => needle.isEmpty
  | c :: cs => needle.isPrefixOf (c :: cs) || containsSubCh needle cs

/-- Python `needle in hay` on strings. -/
def strContains (hay needle : String) : Bool :=
  containsSubCh needle.data hay.data

/-- `"\n".join(parts)`. -/
def joinNL : List String → String
  | [] => ""
  | [s] => s
  | s :: rest => s ++ "\n" ++ joinNL rest

/-- Concatenation of a list of strings, modelling feeding successive chunks
to a streaming digest. -/
def concatAll : List String → String
  | [] => ""
  | s :: rest => s ++ concatAll rest

/-- Split a path string into its directory part (with trailing slash) and
its final component, as `pathlib` does. -/
def splitBaseName (p : String) : String × String :=
  let rev := p.data.reverse
  (String.mk (rev.dropWhile (fun ch => ch != '/')).reverse,
   String.mk (rev.takeWhile (fun ch => ch != '/')).reverse)

/-- `pathlib.Path(p).with_suffix(suf)`: replace the extension of the final
component (the part from its last dot, unless that dot is its first
character) with `suf`, appending `suf` when there is no extension. -/
def withSuffix (p suf : String) : String :=
  let d := (splitBaseName p).1
  let b := (splitBaseName p).2
  let rev := b.data.reverse
  let afterDotRev := rev.dropWhile (fun ch => ch != '.')
  let stem : List Char :=
    match afterDotRev with
    | [] => b.data
    | [_] => b.data
    | _ :: restRev => restRev.reverse
  d ++ String.mk stem ++ suf

/-- `pathlib.Path(p).parent` for relative paths. -/
def parentDir (p : String) : String :=
  let d := (splitBaseName p).1
  if d = "" then "." else String.mk d.data.dropLast

/-- `pathlib.Path(d) / fn` for relative paths. -/
def joinPath (d fn : String) : String :=
  if d = "." then fn else d ++ "/" ++ fn

/-- The filesystem: a partial map from path strings to text contents. -/
def FS : Type := String → Option String

/-- Write (create or overwrite) one file. -/
def fsSet (fs : FS) (p v : String) : FS :=
  fun q => if q = p then some v else fs q

/-- Failure conditions of the modelled code: a missing file
(`FileNotFoundError`), Python stack exhaustion on cyclic includes, a
resolver subprocess failure (`subprocess.CalledProcessError` from
`check=True`), and `ValueError`. -/
inductive PipError : Type where
  | fileNotFound (p : String)
  | recursionLimit
  | calledProcessError
  | valueError (msg : String)
  deriving DecidableEq

instance {ε α : Type} [DecidableEq ε] [DecidableEq α] : DecidableEq (Except ε α)
  | .ok a, .ok b => decidable_of_iff (a = b) (by simp)
  | .ok _, .error _ => isFalse (by simp)
  | .error _, .ok _ => isFalse (by simp)
  | .error e, .error f => decidable_of_iff (e = f) (by simp)

/-- Fuel-bounded scan modelling `re.findall(r"\s*-r\s+(.*)", c)`: find each
non-overlapping occurrence of `-r` followed by at least one whitespace
character, and capture the rest of that line after the maximal whitespace
run (the leading `\s*` of the pattern only widens the match region and
never changes the capture or the continuation point).  Fuel equal to the
length of the list is always sufficient. -/
def scanIncludesGo : Nat → List Char → List (List Char)
  | 0, _ => []
  | _ + 1, [] => []
  | fuel + 1, c1 :: cs =>
    match c1, cs with
    | '-', 'r' :: c3 :: cs2 =>
      if isPyWs c3 then
        let afterWs := (c3 :: cs2).dropWhile isPyWs
        afterWs.takeWhile (fun ch => ch != '\n') ::
          scanIncludesGo fuel (afterWs.dropWhile (fun ch => ch != '\n'))
      else
        scanIncludesGo fuel cs
    | _, _ => scanIncludesGo fuel cs

/-- The include file names extracted from one file's content: each regex
capture with its trailing `#`-comment stripped and surrounding whitespace
removed (`include.split("#", 1)[0].strip()`). -/
def includesOf (c : String) : List String :=
  (scanIncludesGo c.data.length c.data).map
    (fun cap => String.mk (pyStripCh (beforeHashCh cap)))

/-- `_collect_all_input_files_content`: read the file, yield its content,
then for every include directive recursively yield the included file's
contents, depth first, in order of appearance.  A missing file surfaces as
`fileNotFound`; exhausted fuel models Python stack exhaustion on cyclic
includes. -/
def _collect_all_input_files_content (fs : FS) : Nat → String → Except PipError (List String)
  | 0, _ => .error .recursionLimit
  | fuel + 1, p =>
    match fs p with
    | none => .error (.fileNotFound p)
    | some c =>
      match (includesOf c).mapM
          (fun fn => _collect_all_input_files_content fs fuel (joinPath (parentDir p) fn)) with
      | .error e => .error e
      | .ok subs => .ok (c :: subs.flatten)

/-- `compute_requirements_in_hash`: the algorithm tag `"sha256:"` followed
by the digest of the concatenation of all collected file contents.
`hashFn` stands for the hex SHA-256 digest of the UTF-8 encoding. -/
def compute_requirements_in_hash (hashFn : String → String) (fs : FS) (fuel : Nat)
    (requirements_in : String) : Except PipError String :=
  match _collect_all_input_files_content fs fuel requirements_in with
  | .error e => .error e
  | .ok cs => .ok ("sha256:" ++ hashFn (concatAll cs))

/-- `check_requirements_needs_recompile`: decides whether the lock file
must be regenerated, also returning the warning messages emitted at
warning level. -/
def check_requirements_needs_recompile (hashFn : String → String) (fs : FS) (fuel : Nat)
    (requiremenets : String) : Except PipError (Bool × List String) :=
  let requirements_txt := withSuffix requiremenets ".txt"
  let requirements_in := withSuffix requiremenets ".in"
  match fs requirements_in with
  | none => .ok (false, [])
  | some _ =>
    match fs requirements_txt with
    | none => .ok (true, [])
    | some requirements_txt_content =>
      match compute_requirements_in_hash hashFn fs fuel requirements_in with
      | .error e => .error e
      | .ok hash1 =>
        if strContains requirements_txt_content hash1 then
          .ok (false, [])
        else
          .ok (true, ["File " ++ requirements_txt ++
            " needs to be recompiled with \x27bigflow build-requirements\x27 command"])

/-- `read_requirements`: optional staleness check (a stale file raises
`ValueError`), then a line-by-line parse of the file: strip the trailing
`#`-comment and surrounding whitespace; a line starting with `-r ` is an
include directive, read recursively (with the staleness check disabled)
relative to the current file's directory after deleting every occurrence
of `-r ` from the line (`line.replace("-r ", "")`); any other nonempty
line is appended verbatim; blank lines are skipped. -/
def read_requirements (hashFn : String → String) (fs : FS) (hashFuel : Nat) :
    Nat → String → Bool → Except PipError (List String)
  | 0, _, _ => .error .recursionLimit
  | fuel + 1, requirements_path, recompile_check =>
    let gate : Except PipError Unit :=
      if recompile_check then
        match check_requirements_needs_recompile hashFn fs hashFuel requirements_path with
        | .error e => .error e
        | .ok (true, _) =>
          .error (.valueError "Requirements needs to be recompiled with \x27pip-tools\x27")
        | .ok (false, _) => .ok ()
      else .ok ()
    match gate with
    | .error e => .error e
    | .ok _ =>
      match fs requirements_path with
      | none => .error (.fileNotFound requirements_path)
      | some content =>
        (splitOnNl content.data).foldlM
          (fun acc rawLine =>
            let line := pyStripCh (beforeHashCh rawLine)
            if strStartsWithCh ("-r ".data) line then
              (read_requirements hashFn fs hashFuel fuel
                  (joinPath (parentDir requirements_path)
                    (String.mk (pyReplaceCh ("-r ".data) [] line)))
                  false).map
                (fun sub => acc ++ sub)
            else if line = [] then .ok acc
            else .ok (acc ++ [String.mk line]))
          []

/-- The option record of `pip_compile` (all keyword arguments). -/
structure PipOpts : Type where
  dry_run : Bool := false
  verbose : Bool := false
  upgrade : Bool := false
  upgrade_package : String := ""
  prereleases : Bool := false
  rebuild : Bool := false
  extra_args : List String := []

/-- The argv of the `pip-compile` subprocess, exactly as assembled by
`pip_compile`. -/
def pipCompileCmd (o : PipOpts) (txt_path requirements_in : String) : List String :=
  ["pip-compile", "--no-header"]
    ++ (if !o.dry_run then ["-o", txt_path] else [])
    ++ (if o.dry_run then ["--dry-run"] else [])
    ++ (if o.rebuild then ["--rebuild"] else [])
    ++ (if o.upgrade then ["--upgrade"] else [])
    ++ (if o.prereleases then ["--pre"] else [])
    ++ (if o.upgrade_package ≠ "" then ["--upgrade-package", o.upgrade_package] else [])
    ++ (if o.verbose then ["-v"] else ["-q"])
    ++ o.extra_args ++ [requirements_in]

/-- The external `pip-compile` process (`bigflow.commons.run_process` with
`check=True`): given the filesystem it observes and its argv, it either
succeeds — producing the resolved text it writes to the `-o` output file
when one was passed — or exits nonzero (`CalledProcessError`). -/
def Resolver : Type := FS → List String → Except Unit String

/-- The first stage of `pip_compile`: create the scoped temporary output
file (empty), then seed it with the bytes of the existing lock file unless
`rebuild` is set. -/
def pip_compile_seed (fs : FS) (tmpName requiremenets : String) (rebuild : Bool) : FS :=
  let requirements_txt := withSuffix requiremenets ".txt"
  let fs1 := fsSet fs tmpName ""
  match fs requirements_txt, rebuild with
  | some prior, false => fsSet fs1 tmpName prior
  | _, _ => fs1

/-- The fixed-format header written at the top of the generated lock file
(the result of `textwrap.dedent` on the source's f-string). -/
def pipHeader (source_hash requirements_in : String) : String :=
  "# *** autogenerated: don\x27t edit ***\n# $source-hash: " ++ source_hash ++
    "\n# $source-file: " ++ requirements_in ++
    "\n#\n# run \x27bigflow build-requirements " ++ requirements_in ++
    "\x27 to update this file\n\n"

/-- `pip_compile`: seed the scoped temporary file, run the resolver on the
seeded state, read the temporary file back; on dry-run stop there; else
compute the source fingerprint and write the lock file as header plus
resolved content.  Returns the final filesystem (the temporary file is
created with `delete=False` and never unlinked, so it survives on every
path) together with the outcome. -/
def pip_compile (resolver : Resolver) (hashFn : String → String) (fuel : Nat)
    (tmpName : String) (fs : FS) (requiremenets : String) (o : PipOpts) :
    FS × Except PipError Unit :=
  let requirements_txt := withSuffix requiremenets ".txt"
  let requirements_in := withSuffix requiremenets ".in"
  let txt_path := tmpName
  let fs2 := pip_compile_seed fs tmpName requiremenets o.rebuild
  match resolver fs2 (pipCompileCmd o txt_path requirements_in) with
  | .error _ => (fs2, .error .calledProcessError)
  | .ok out =>
    let fs3 := if o.dry_run then fs2 else fsSet fs2 txt_path out
    match fs3 txt_path with
    | none => (fs3, .error (.fileNotFound txt_path))
    | some reqs_content =>
      if o.dry_run then (fs3, .ok ())
      else
        match compute_requirements_in_hash hashFn fs3 fuel requirements_in with
        | .error e => (fs3, .error e)
        | .ok source_hash =>
          (fsSet fs3 requirements_txt (pipHeader source_hash requirements_in ++ reqs_content),
           .ok ())

/-- The loop body of `_try_incrementally_add_pins`: for each candidate pin,
write the pins file as the partial banner, all decisions so far, the
candidate, and the `# ...` trailer; dry-run compile; on
`CalledProcessError` record the candidate commented out with the CONFLICT
marker and add it to the rejected list, otherwise keep it plainly.  `i`
numbers the invocations so each one gets a fresh temporary file name. -/
def addPinsGo (resolver : Resolver) (hashFn : String → String) (fuel : Nat)
    (tmpNames : Nat → String) (pins_file_in requirements_in : String) :
    Nat → FS → List String → List String → List String →
      Except PipError (FS × List String × List String)
  | _, fs, bad_pins, all_pins, [] => .ok (fs, bad_pins, all_pins)
  | i, fs, bad_pins, all_pins, pin :: rest =>
    let content := joinNL ("# *** autogenerated - partial! ***" :: (all_pins ++ [pin, "# ..."]))
    let fs1 := fsSet fs pins_file_in content
    match pip_compile resolver hashFn fuel (tmpNames i) fs1 requirements_in { dry_run := true } with
    | (fs2, .ok _) =>
      addPinsGo resolver hashFn fuel tmpNames pins_file_in requirements_in
        (i + 1) fs2 bad_pins (all_pins ++ [pin]) rest
    | (fs2, .error .calledProcessError) =>
      addPinsGo resolver hashFn fuel tmpNames pins_file_in requirements_in
        (i + 1) fs2 (bad_pins ++ [pin]) (all_pins ++ ["## " ++ pin ++ "  # CONFLICT"]) rest
    | (_, .error e) => .error e

/-- `_try_incrementally_add_pins`: run the incremental loop from empty
decision lists, returning the final filesystem, the rejected pins and the
full decision list. -/
def _try_incrementally_add_pins (resolver : Resolver) (hashFn : String → String) (fuel : Nat)
    (tmpNames : Nat → String) (fs : FS) (pins_file_in requirements_in : String)
    (pins : List String) : Except PipError (FS × List String × List String) :=
  addPinsGo resolver hashFn fuel tmpNames pins_file_in requirements_in 0 fs [] [] pins

/-- Spec-side restatement of the fingerprint input (section 4.1 of the
spec): the file's own content followed, depth first and in order of
appearance, by the content of every transitively included file, as one
concatenated string. -/
def depthFirstConcat (fs : FS) : Nat → String → Except PipError String
  | 0, _ => .error .recursionLimit
  | fuel + 1, p =>
    match fs p with
    | none => .error (.fileNotFound p)
    | some c =>
      (includesOf c).foldlM
        (fun acc fn => (depthFirstConcat fs fuel (joinPath (parentDir p) fn)).map
          (fun s => acc ++ s))
        c

/-- Ghost companion of `_collect_all_input_files_content`: the list of
paths it reads, in the same order. -/
def collectPaths (fs : FS) : Nat → String → Except PipError (List String)
  | 0, _ => .error .recursionLimit
  | fuel + 1, p =>
    match fs p with
    | none => .error (.fileNotFound p)
    | some c =>
      match (includesOf c).mapM
          (fun fn => collectPaths fs fuel (joinPath (parentDir p) fn)) with
      | .error e => .error e
      | .ok subs => .ok (p :: subs.flatten)

/-- How one decided candidate appears in the running pin list: plainly when
accepted, commented out with the CONFLICT marker when rejected. -/
def decorPin (pin : String) (accepted : Bool) : String :=
  if accepted then pin else "## " ++ pin ++ "  # CONFLICT"

/-- The full decision list produced for `pins` by the acceptance flags. -/
def allOf (pins : List String) (flags : List Bool) : List String :=
  (pins.zip flags).map (fun q => decorPin q.1 q.2)

/-- The rejected sublist produced for `pins` by the acceptance flags. -/
def badOf (pins : List String) (flags : List Bool) : List String :=
  ((pins.zip flags).filter (fun q => !q.2)).map (fun q => q.1)

/-- One resolver attempt of the incremental pin loop, as observed when the
attempt is made: the pins-file content just written, the decision history
before the attempt, the candidate under test, the filesystem passed to the
dry-run compile, the invocation index, and whether the candidate was
accepted. -/
structure PinAttempt : Type where
  written : String
  history : List String
  pin : String
  fsAt : FS
  idx : Nat
  accepted : Bool

instance : Inhabited PinAttempt :=
  ⟨⟨"", [], "", fun _ => none, 0, false⟩⟩

/-- Ghost companion of `addPinsGo` returning, besides the loop's result,
the trace of resolver attempts. -/
def addPinsGoTr (resolver : Resolver) (hashFn : String → String) (fuel : Nat)
    (tmpNames : Nat → String) (pins_file_in requirements_in : String) :
    Nat → FS → List String → List String → List String →
      Except PipError (FS × List String × List String) × List PinAttempt
  | _, fs, bad_pins, all_pins, [] => (.ok (fs, bad_pins, all_pins), [])
  | i, fs, bad_pins, all_pins, pin :: rest =>
    let content := joinNL ("# *** autogenerated - partial! ***" :: (all_pins ++ [pin, "# ..."]))
    let fs1 := fsSet fs pins_file_in content
    match pip_compile resolver hashFn fuel (tmpNames i) fs1 requirements_in { dry_run := true } with
    | (fs2, .ok _) =>
      let pr := addPinsGoTr resolver hashFn fuel tmpNames pins_file_in requirements_in
        (i + 1) fs2 bad_pins (all_pins ++ [pin]) rest
      (pr.1, ⟨content, all_pins, pin, fs1, i, true⟩ :: pr.2)
    | (fs2, .error .calledProcessError) =>
      let pr := addPinsGoTr resolver hashFn fuel tmpNames pins_file_in requirements_in
        (i + 1) fs2 (bad_pins ++ [pin]) (all_pins ++ ["## " ++ pin ++ "  # CONFLICT"]) rest
      (pr.1, ⟨content, all_pins, pin, fs1, i, false⟩ :: pr.2)
    | (_, .error e) => (.error e, [⟨content, all_pins, pin, fs1, i, false⟩])

/-- Spec-side restatement of one line of the lock-file reader (section 4.4
of the spec), parameterized by the recursive reader used for include
directives. -/
def readLineSpec (recur : String → Except PipError (List String)) (dir : String)
    (rawLine : List Char) : Except PipError (List String) :=
  let line := pyStripCh (beforeHashCh rawLine)
  if strStartsWithCh ("-r ".data) line then
    recur (joinPath dir (String.mk (pyReplaceCh ("-r ".data) [] line)))
  else if line = [] then .ok []
  else .ok [String.mk line]

/-! ### Basic lemmas about the embedding -/

theorem fsSet_same (fs : FS) (p v : String) : fsSet fs p v p = some v := by
  simp [fsSet]

theorem fsSet_other (fs : FS) (p v q : String) (h : q ≠ p) : fsSet fs p v q = fs q := by
  simp [fsSet, h]

theorem concatAll_append (l₁ l₂ : List String) :
    concatAll (l₁ ++ l₂) = concatAll l₁ ++ concatAll l₂ := by
  induction l₁ with
  | nil => simp [concatAll]
  | cons s rest ih => simp [concatAll, ih, String.append_assoc]

theorem containsSubCh_mid (n a b : List Char) : containsSubCh n (a ++ n ++ b) = true := by
  induction a with
  | nil =>
    cases n with
    | nil => cases b <;> simp [containsSubCh, List.isPrefixOf]
    | cons c cs =>
      simp only [List.nil_append, List.cons_append, containsSubCh, Bool.or_eq_true]
      left
      rw [List.isPrefixOf_iff_prefix]
      exact ⟨b, by simp⟩
  | cons c a' ih =>
    simp only [List.cons_append, containsSubCh, Bool.or_eq_true]
    right
    exact ih

theorem strContains_mid (x h y : String) : strContains (x ++ h ++ y) h = true := by
  simp only [strContains, String.data_append]
  exact containsSubCh_mid h.data x.data y.data

theorem withSuffix_in_ne_txt (p : String) : withSuffix p ".in" ≠ withSuffix p ".txt" := by
  intro h
  simp only [withSuffix] at h
  have hd : (withSuffix p ".in").data = (withSuffix p ".txt").data := by
    simp [withSuffix, h]
  simp only [withSuffix, String.data_append] at hd
  have := List.append_cancel_left hd
  simp at this

/-! ### Lemmas about `pip_compile`'s stages -/

/-- The content of the scoped temporary file right after seeding: the prior
lock file's bytes when it exists and `rebuild` is not set, empty
otherwise. -/
theorem seed_tmp_content (fs : FS) (tmpName req : String) (rebuild : Bool) :
    pip_compile_seed fs tmpName req rebuild tmpName =
      some (match fs (withSuffix req ".txt"), rebuild with
            | some prior, false => prior
            | _, _ => "") := by
  unfold pip_compile_seed
  rcases htxt : fs (withSuffix req ".txt") with _ | prior <;> cases rebuild <;>
    simp [fsSet]

theorem seed_tmp_isSome (fs : FS) (tmpName req : String) (rebuild : Bool) :
    (pip_compile_seed fs tmpName req rebuild tmpName).isSome = true := by
  rw [seed_tmp_content]; rfl

theorem seed_other (fs : FS) (tmpName req : String) (rebuild : Bool) (q : String)
    (h : q ≠ tmpName) : pip_compile_seed fs tmpName req rebuild q = fs q := by
  unfold pip_compile_seed
  rcases fs (withSuffix req ".txt") with _ | prior <;> cases rebuild <;>
    simp [fsSet, h]

/-- In dry-run mode `pip_compile` leaves the filesystem at the seeded state
and merely reports whether the resolver succeeded. -/
theorem pip_compile_dry (resolver : Resolver) (hashFn : String → String) (fuel : Nat)
    (tmpName : String) (fs : FS) (req : String) (o : PipOpts) (ho : o.dry_run = true) :
    pip_compile resolver hashFn fuel tmpName fs req o =
      (pip_compile_seed fs tmpName req o.rebuild,
       match resolver (pip_compile_seed fs tmpName req o.rebuild)
           (pipCompileCmd o tmpName (withSuffix req ".in")) with
       | .ok _ => .ok ()
       | .error _ => .error .calledProcessError) := by
  unfold pip_compile
  rcases hr : resolver (pip_compile_seed fs tmpName req o.rebuild)
      (pipCompileCmd o tmpName (withSuffix req ".in")) with _ | out
  · simp [hr]
  · have hs := seed_tmp_isSome fs tmpName req o.rebuild
    rcases hv : pip_compile_seed fs tmpName req o.rebuild tmpName with _ | v
    · rw [hv] at hs; simp at hs
    · simp [hr, ho, hv]

/-- Exhaustive description of `pip_compile`'s outcome paths: resolver
failure at the seeded state; dry-run success; non-dry-run with a failing
fingerprint computation; and full success, writing header plus resolved
content to the lock file. -/
theorem pip_compile_cases (r : Resolver) (hashFn : String → String) (fuel : Nat)
    (tmp : String) (fs : FS) (req : String) (o : PipOpts) :
    (∃ e, r (pip_compile_seed fs tmp req o.rebuild)
        (pipCompileCmd o tmp (withSuffix req ".in")) = .error e ∧
       pip_compile r hashFn fuel tmp fs req o =
         (pip_compile_seed fs tmp req o.rebuild, .error .calledProcessError)) ∨
    (∃ out, r (pip_compile_seed fs tmp req o.rebuild)
        (pipCompileCmd o tmp (withSuffix req ".in")) = .ok out ∧ o.dry_run = true ∧
       pip_compile r hashFn fuel tmp fs req o =
         (pip_compile_seed fs tmp req o.rebuild, .ok ())) ∨
    (∃ out, r (pip_compile_seed fs tmp req o.rebuild)
        (pipCompileCmd o tmp (withSuffix req ".in")) = .ok out ∧ o.dry_run = false ∧
       ((∃ e, compute_requirements_in_hash hashFn
            (fsSet (pip_compile_seed fs tmp req o.rebuild) tmp out) fuel
            (withSuffix req ".in") = .error e ∧
          pip_compile r hashFn fuel tmp fs req o =
            (fsSet (pip_compile_seed fs tmp req o.rebuild) tmp out, .error e)) ∨
        (∃ h, compute_requirements_in_hash hashFn
            (fsSet (pip_compile_seed fs tmp req o.rebuild) tmp out) fuel
            (withSuffix req ".in") = .ok h ∧
          pip_compile r hashFn fuel tmp fs req o =
            (fsSet (fsSet (pip_compile_seed fs tmp req o.rebuild) tmp out)
               (withSuffix req ".txt") (pipHeader h (withSuffix req ".in") ++ out),
             .ok ())))) := by
  rcases hr : r (pip_compile_seed fs tmp req o.rebuild)
      (pipCompileCmd o tmp (withSuffix req ".in")) with e | out
  · left
    exact ⟨e, rfl, by simp [pip_compile, hr]⟩
  · right
    cases ho : o.dry_run
    · right
      refine ⟨out, rfl, rfl, ?_⟩
      rcases hc : compute_requirements_in_hash hashFn
          (fsSet (pip_compile_seed fs tmp req o.rebuild) tmp out) fuel
          (withSuffix req ".in") with e | h
      · exact Or.inl ⟨e, rfl, by simp [pip_compile, hr, ho, hc, fsSet_same]⟩
      · exact Or.inr ⟨h, rfl, by simp [pip_compile, hr, ho, hc, fsSet_same]⟩
    · left
      refine ⟨out, rfl, rfl, ?_⟩
      rw [pip_compile_dry r hashFn fuel tmp fs req o ho, hr]

/-- C6 (amended).  On every outcome path the scoped temporary file still
exists on the filesystem when `pip_compile` returns: it is created with
`delete=False` and never unlinked. -/
theorem pip_compile_temp_survives (r : Resolver) (hashFn : String → String) (fuel : Nat)
    (tmp : String) (fs : FS) (req : String) (o : PipOpts) :
    (((pip_compile r hashFn fuel tmp fs req o).1) tmp).isSome = true := by
  rcases pip_compile_cases r hashFn fuel tmp fs req o with
    ⟨e, _, heq⟩ | ⟨out, _, _, heq⟩ | ⟨out, _, _, ⟨e, _, heq⟩ | ⟨h, _, heq⟩⟩
  · rw [heq]; exact seed_tmp_isSome fs tmp req o.rebuild
  · rw [heq]; exact seed_tmp_isSome fs tmp req o.rebuild
  · rw [heq]; simp [fsSet_same]
  · rw [heq]
    by_cases htxt : tmp = withSuffix req ".txt"
    · subst htxt; simp [fsSet_same]
    · simp [fsSet, htxt]

/-- C6 (counterexample to the claim as stated): a concrete successful
invocation after which the temporary file still exists with the resolved
content, so it is not removed by the end of the invocation. -/
theorem pip_compile_temp_persists_cex :
    ((pip_compile (fun _ _ => .ok "numpy==1.2\n") (fun s => s) 2 "tmp0"
        (fun q => if q = "r.in" then some "numpy==1\n" else none) "r" {}).1) "tmp0"
      = some "numpy==1.2\n" := by
  decide

/-- C9.  Before the resolver is invoked, the scoped temporary file holds
the prior lock file's bytes when one exists and `rebuild` is unset, and is
empty otherwise (with `rebuild` set the prior lock file is ignored as a
seed); seeding touches no other path; and `pip_compile`'s behaviour
depends on the resolver only through its value at the seeded state. -/
theorem pip_compile_seeding :
    (∀ (fs : FS) (tmp req prior : String), fs (withSuffix req ".txt") = some prior →
       pip_compile_seed fs tmp req false tmp = some prior) ∧
    (∀ (fs : FS) (tmp req : String), pip_compile_seed fs tmp req true tmp = some "") ∧
    (∀ (fs : FS) (tmp req : String), fs (withSuffix req ".txt") = none →
       pip_compile_seed fs tmp req false tmp = some "") ∧
    (∀ (fs : FS) (tmp req : String) (rb : Bool) (q : String), q ≠ tmp →
       pip_compile_seed fs tmp req rb q = fs q) ∧
    (∀ (r1 r2 : Resolver) (hashFn : String → String) (fuel : Nat) (tmp : String)
       (fs : FS) (req : String) (o : PipOpts),
       (∀ args, r1 (pip_compile_seed fs tmp req o.rebuild) args =
                r2 (pip_compile_seed fs tmp req o.rebuild) args) →
       pip_compile r1 hashFn fuel tmp fs req o = pip_compile r2 hashFn fuel tmp fs req o) := by
  refine ⟨?_, ?_, ?_, ?_, ?_⟩
  · intro fs tmp req prior hp
    rw [seed_tmp_content, hp]
  · intro fs tmp req
    rw [seed_tmp_content]
    rcases fs (withSuffix req ".txt") with _ | prior <;> rfl
  · intro fs tmp req hp
    rw [seed_tmp_content, hp]
  · intro fs tmp req rb q hq
    exact seed_other fs tmp req rb q hq
  · intro r1 r2 hashFn fuel tmp fs req o hagree
    simp only [pip_compile, hagree]

/-- Witness for C9: with an existing lock file and `rebuild` unset, the
temporary file is seeded with the lock file's bytes. -/
theorem pip_compile_seeding_witness :
    pip_compile_seed (fun q => if q = "r.txt" then some "old==1\n" else none)
      "tmp0" "r" false "tmp0" = some "old==1\n" := by
  exact pip_compile_seeding.1 _ "tmp0" "r" "old==1\n" (by decide)

theorem warning_names_command (txt : String) :
    strContains ("File " ++ txt ++
      " needs to be recompiled with \x27bigflow build-requirements\x27 command")
      "bigflow build-requirements" = true := by
  have htail : (" needs to be recompiled with \x27bigflow build-requirements\x27 command" : String)
      = " needs to be recompiled with \x27" ++ "bigflow build-requirements" ++ "\x27 command" := by
    decide
  rw [htail]
  simpa [String.append_assoc] using
    strContains_mid ("File " ++ txt ++ " needs to be recompiled with \x27")
      "bigflow build-requirements" "\x27 command"

/-- C1.  `check_requirements_needs_recompile` returns false when no `.in`
file exists; true when the `.in` file exists but the `.txt` file does not;
and otherwise, when the fingerprint recomputation succeeds, it returns
false exactly when that fingerprint occurs as a substring of the `.txt`
file's content, emitting in the stale case a warning naming the
`bigflow build-requirements` remediation command. -/
theorem check_needs_recompile_trichotomy (hashFn : String → String) (fs : FS) (fuel : Nat)
    (p : String) :
    (fs (withSuffix p ".in") = none →
       check_requirements_needs_recompile hashFn fs fuel p = .ok (false, [])) ∧
    (∀ c0, fs (withSuffix p ".in") = some c0 → fs (withSuffix p ".txt") = none →
       check_requirements_needs_recompile hashFn fs fuel p = .ok (true, [])) ∧
    (∀ c0 tc h1, fs (withSuffix p ".in") = some c0 → fs (withSuffix p ".txt") = some tc →
       compute_requirements_in_hash hashFn fs fuel (withSuffix p ".in") = .ok h1 →
       ((check_requirements_needs_recompile hashFn fs fuel p = .ok (false, []) ↔
           strContains tc h1 = true) ∧
        (strContains tc h1 = false →
           ∃ w, check_requirements_needs_recompile hashFn fs fuel p = .ok (true, [w]) ∧
             strContains w "bigflow build-requirements" = true))) := by
  refine ⟨?_, ?_, ?_⟩
  · intro hin
    simp [check_requirements_needs_recompile, hin]
  · intro c0 hin htxt
    simp [check_requirements_needs_recompile, hin, htxt]
  · intro c0 tc h1 hin htxt hcomp
    constructor
    · constructor
      · intro hchk
        by_contra hns
        simp only [Bool.not_eq_true] at hns
        simp [check_requirements_needs_recompile, hin, htxt, hcomp, hns] at hchk
      · intro hsub
        simp [check_requirements_needs_recompile, hin, htxt, hcomp, hsub]
    · intro hns
      refine ⟨_, ?_, warning_names_command (withSuffix p ".txt")⟩
      simp [check_requirements_needs_recompile, hin, htxt, hcomp, hns]

/-- Witness for C1: a concrete filesystem where the recomputed fingerprint
occurs in the lock file, so the check reports fresh. -/
theorem check_needs_recompile_trichotomy_witness :
    check_requirements_needs_recompile (fun s => s)
      (fun q => if q = "a.in" then some "x==1\n"
                else if q = "a.txt" then some "# $source-hash: sha256:x==1\n\nx==1\n"
                else none) 2 "a" = .ok (false, []) := by
  exact ((check_needs_recompile_trichotomy (fun s => s) _ 2 "a").2.2
      "x==1\n" "# $source-hash: sha256:x==1\n\nx==1\n" "sha256:x==1\n"
      (by decide) (by decide) (by decide)).1.mpr (by decide)

theorem emap_ok (f : α → β) (a : α) : (Except.ok a : Except PipError α).map f = .ok (f a) := rfl

theorem emap_err (f : α → β) (e : PipError) :
    (Except.error e : Except PipError α).map f = .error e := rfl

theorem ebind_ok (a : α) (f : α → Except PipError β) : (Except.ok a) >>= f = f a := rfl

theorem ebind_err (e : PipError) (f : α → Except PipError β) :
    (Except.error e : Except PipError α) >>= f = .error e := rfl

theorem epure (a : α) : (pure a : Except PipError α) = .ok a := rfl

/-- Unfolding of the collector when the file exists, phrased with the
proof-friendly `mapM'`. -/
theorem collect_succ_some (fs : FS) (fuel : Nat) (p c : String) (hp : fs p = some c) :
    _collect_all_input_files_content fs (fuel + 1) p =
      match (includesOf c).mapM'
          (fun fn => _collect_all_input_files_content fs fuel (joinPath (parentDir p) fn)) with
      | .error e => .error e
      | .ok subs => .ok (c :: subs.flatten) := by
  rw [List.mapM'_eq_mapM]
  simp only [_collect_all_input_files_content, hp]

theorem collect_succ_none (fs : FS) (fuel : Nat) (p : String) (hp : fs p = none) :
    _collect_all_input_files_content fs (fuel + 1) p = .error (.fileNotFound p) := by
  simp only [_collect_all_input_files_content, hp]

theorem dfc_succ_some (fs : FS) (fuel : Nat) (p c : String) (hp : fs p = some c) :
    depthFirstConcat fs (fuel + 1) p =
      (includesOf c).foldlM
        (fun acc fn => (depthFirstConcat fs fuel (joinPath (parentDir p) fn)).map
          (fun s => acc ++ s)) c := by
  simp only [depthFirstConcat, hp]

theorem dfc_succ_none (fs : FS) (fuel : Nat) (p : String) (hp : fs p = none) :
    depthFirstConcat fs (fuel + 1) p = .error (.fileNotFound p) := by
  simp only [depthFirstConcat, hp]

/-- The hasher's collector refines the spec-side depth-first concatenation:
joining the collected chunks yields exactly the source content followed by
every transitively included file's content, depth first, in order. -/
theorem dfc_eq_collect_map (fs : FS) : ∀ (fuel : Nat) (p : String),
    depthFirstConcat fs fuel p =
      (_collect_all_input_files_content fs fuel p).map concatAll := by
  intro fuel
  induction fuel with
  | zero => intro p; rfl
  | succ fuel ih =>
    intro p
    rcases hp : fs p with _ | c
    · rw [dfc_succ_none fs fuel p hp, collect_succ_none fs fuel p hp, emap_err]
    · rw [dfc_succ_some fs fuel p c hp, collect_succ_some fs fuel p c hp]
      have key : ∀ (l : List String) (acc : String),
          l.foldlM (fun acc fn =>
              (depthFirstConcat fs fuel (joinPath (parentDir p) fn)).map
                (fun s => acc ++ s)) acc
            = (l.mapM' (fun fn =>
                _collect_all_input_files_content fs fuel (joinPath (parentDir p) fn))).map
                (fun subs => acc ++ concatAll subs.flatten) := by
        intro l
        induction l with
        | nil =>
          intro acc
          rw [List.foldlM_nil, List.mapM'_nil]
          simp only [epure, emap_ok]
          simp [concatAll, String.append_empty]
        | cons fn l' ihl =>
          intro acc
          rw [List.foldlM_cons, List.mapM'_cons, ih]
          rcases h1 : _collect_all_input_files_content fs fuel (joinPath (parentDir p) fn)
            with e | s₁
          · simp only [emap_err, ebind_err]
          · simp only [emap_ok, ebind_ok]
            rw [ihl (acc ++ concatAll s₁)]
            rcases h2 : l'.mapM' (fun fn =>
                _collect_all_input_files_content fs fuel (joinPath (parentDir p) fn))
              with e | subs'
            · simp only [ebind_err, emap_err]
            · simp only [ebind_ok, epure, emap_ok]
              simp [concatAll, concatAll_append, String.append_assoc]
      rw [key (includesOf c) c]
      rcases h2 : (includesOf c).mapM' (fun fn =>
          _collect_all_input_files_content fs fuel (joinPath (parentDir p) fn))
        with e | subs
      · simp only [emap_err]
      · simp only [emap_ok]
        simp [concatAll]

/-- C3.  `compute_requirements_in_hash` is the algorithm tag `"sha256:"`
followed by the digest of the source file's content concatenated with the
content of every transitively included file, depth first, in order of
appearance; a missing included file surfaces as the same file-not-found
failure on both sides. -/
theorem compute_hash_depth_first_format (hashFn : String → String) (fs : FS)
    (fuel : Nat) (p : String) :
    compute_requirements_in_hash hashFn fs fuel p =
      (depthFirstConcat fs fuel p).map (fun s => "sha256:" ++ hashFn s) ∧
    (∀ s, depthFirstConcat fs fuel p = .ok s →
       compute_requirements_in_hash hashFn fs fuel p = .ok ("sha256:" ++ hashFn s)) := by
  have hmain : compute_requirements_in_hash hashFn fs fuel p =
      (depthFirstConcat fs fuel p).map (fun s => "sha256:" ++ hashFn s) := by
    rw [dfc_eq_collect_map]
    unfold compute_requirements_in_hash
    rcases hc : _collect_all_input_files_content fs fuel p with e | cs <;>
      simp [hc, Except.map]
  exact ⟨hmain, fun s hs => by rw [hmain, hs]; rfl⟩

/-- Witness for C3: with an include chain `a.in -> b.in`, the fingerprint
is the tag applied to `a.in`'s content followed by `b.in`'s content. -/
theorem compute_hash_depth_first_format_witness :
    compute_requirements_in_hash (fun s => s)
      (fun q => if q = "a.in" then some "-r b.in\nfoo" else
                if q = "b.in" then some "bar" else none) 2 "a.in"
      = .ok ("sha256:" ++ "-r b.in\nfoobar") := by
  exact (compute_hash_depth_first_format (fun s => s) _ 2 "a.in").2
    "-r b.in\nfoobar" (by decide)

/-! ### The lock-file reader -/

theorem foldlM_congr (f g : β → α → Except PipError β) (h : ∀ b a, f b a = g b a) :
    ∀ (l : List α) (b : β), l.foldlM f b = l.foldlM g b := by
  intro l
  induction l with
  | nil => intro b; rfl
  | cons a l' ih =>
    intro b
    rw [List.foldlM_cons, List.foldlM_cons, h]
    rcases hga : g b a with e | b'
    · simp only [ebind_err]
    · simp only [ebind_ok]
      exact ih b'

theorem fold_readline (g : List Char → Except PipError (List String)) :
    ∀ (lines : List (List Char)) (acc : List String),
      lines.foldlM (fun acc line => (g line).map (fun sub => acc ++ sub)) acc
        = (lines.mapM' g).map (fun ls => acc ++ ls.flatten) := by
  intro lines
  induction lines with
  | nil =>
    intro acc
    rw [List.foldlM_nil, List.mapM'_nil]
    simp only [epure, emap_ok]
    simp
  | cons line rest ih =>
    intro acc
    rw [List.foldlM_cons, List.mapM'_cons]
    rcases h1 : g line with e | s₁
    · simp only [emap_err, ebind_err]
    · simp only [emap_ok, ebind_ok]
      rw [ih (acc ++ s₁)]
      rcases h2 : rest.mapM' g with e | ls
      · simp only [ebind_err, emap_err]
      · simp only [ebind_ok, epure, emap_ok]
        simp [List.append_assoc]

theorem read_succ_nocheck (hashFn : String → String) (fs : FS) (hashFuel fuel : Nat)
    (p content : String) (hp : fs p = some content) :
    read_requirements hashFn fs hashFuel (fuel + 1) p false =
      (splitOnNl content.data).foldlM
        (fun acc rawLine =>
          let line := pyStripCh (beforeHashCh rawLine)
          if strStartsWithCh ("-r ".data) line then
            (read_requirements hashFn fs hashFuel fuel
                (joinPath (parentDir p) (String.mk (pyReplaceCh ("-r ".data) [] line)))
                false).map
              (fun sub => acc ++ sub)
          else if line = [] then .ok acc
          else .ok (acc ++ [String.mk line]))
        [] := by
  simp only [read_requirements, hp]
  rfl

theorem read_succ_stale (hashFn : String → String) (fs : FS) (hashFuel fuel : Nat)
    (p : String) (ws : List String)
    (hc : check_requirements_needs_recompile hashFn fs hashFuel p = .ok (true, ws)) :
    read_requirements hashFn fs hashFuel (fuel + 1) p true =
      .error (.valueError "Requirements needs to be recompiled with \x27pip-tools\x27") := by
  simp only [read_requirements, hc]
  simp

theorem read_succ_fresh (hashFn : String → String) (fs : FS) (hashFuel fuel : Nat)
    (p : String) (ws : List String)
    (hc : check_requirements_needs_recompile hashFn fs hashFuel p = .ok (false, ws)) :
    read_requirements hashFn fs hashFuel (fuel + 1) p true =
      read_requirements hashFn fs hashFuel (fuel + 1) p false := by
  simp only [read_requirements, hc]
  simp

/-- C4.  The reader: a stale file (with the check enabled) fails with the
stale-lock-file `ValueError`; a fresh file reads exactly as with the check
disabled; and reading with the check disabled processes the file line by
line — strip from the first `#` and trim; a line starting `-r ` expands
inline, at the directive's position, to the recursive read (check
disabled) of the referenced file relative to the current file's
directory; other nonempty lines are appended verbatim; blank lines are
skipped; order is preserved and duplicates are not removed. -/
theorem read_requirements_line_processing (hashFn : String → String) (fs : FS)
    (hashFuel fuel : Nat) (p : String) :
    (∀ ws, check_requirements_needs_recompile hashFn fs hashFuel p = .ok (true, ws) →
       read_requirements hashFn fs hashFuel (fuel + 1) p true =
         .error (.valueError "Requirements needs to be recompiled with \x27pip-tools\x27")) ∧
    (∀ ws, check_requirements_needs_recompile hashFn fs hashFuel p = .ok (false, ws) →
       read_requirements hashFn fs hashFuel (fuel + 1) p true =
         read_requirements hashFn fs hashFuel (fuel + 1) p false) ∧
    (∀ content, fs p = some content →
       read_requirements hashFn fs hashFuel (fuel + 1) p false =
         ((splitOnNl content.data).mapM'
             (readLineSpec (fun q => read_requirements hashFn fs hashFuel fuel q false)
               (parentDir p))).map
           List.flatten) := by
  refine ⟨fun ws hc => read_succ_stale hashFn fs hashFuel fuel p ws hc,
          fun ws hc => read_succ_fresh hashFn fs hashFuel fuel p ws hc,
          fun content hp => ?_⟩
  rw [read_succ_nocheck hashFn fs hashFuel fuel p content hp]
  have hcong := foldlM_congr
    (fun acc rawLine =>
      let line := pyStripCh (beforeHashCh rawLine)
      if strStartsWithCh ("-r ".data) line then
        (read_requirements hashFn fs hashFuel fuel
            (joinPath (parentDir p) (String.mk (pyReplaceCh ("-r ".data) [] line)))
            false).map
          (fun sub => acc ++ sub)
      else if line = [] then .ok acc
      else .ok (acc ++ [String.mk line]))
    (fun acc rawLine =>
      (readLineSpec (fun q => read_requirements hashFn fs hashFuel fuel q false)
          (parentDir p) rawLine).map
        (fun sub => acc ++ sub))
    (by
      intro acc rawLine
      simp only [readLineSpec]
      cases h1 : strStartsWithCh ("-r ".data) (pyStripCh (beforeHashCh rawLine)) with
      | true => simp [h1]
      | false =>
        simp only [h1, Bool.false_eq_true, if_false]
        by_cases h2 : pyStripCh (beforeHashCh rawLine) = []
        · simp [h2, emap_ok]
        · simp [h2, emap_ok])
  rw [hcong (splitOnNl content.data) []]
  rw [fold_readline
    (readLineSpec (fun q => read_requirements hashFn fs hashFuel fuel q false) (parentDir p))
    (splitOnNl content.data) []]
  rcases h2 : (splitOnNl content.data).mapM'
      (readLineSpec (fun q => read_requirements hashFn fs hashFuel fuel q false)
        (parentDir p)) with e | ls
  · simp only [emap_err]
  · simp only [emap_ok]
    simp

/-- Witness for C4: a file with a comment, a blank line, an include
directive and a plain specifier reads to the expected flattened list. -/
theorem read_requirements_line_processing_witness :
    read_requirements (fun s => s)
      (fun q => if q = "d/r.txt" then some "a==1  # c\n\n-r sub.txt\nb==2\n"
                else if q = "d/sub.txt" then some "s==3\n" else none)
      1 2 "d/r.txt" false = .ok ["a==1", "s==3", "b==2"] := by
  have h := (read_requirements_line_processing (fun s => s)
      (fun q => if q = "d/r.txt" then some "a==1  # c\n\n-r sub.txt\nb==2\n"
                else if q = "d/sub.txt" then some "s==3\n" else none)
      1 1 "d/r.txt").2.2 "a==1  # c\n\n-r sub.txt\nb==2\n" (by decide)
  exact h.trans (by decide)

theorem splitOnNl_nlfree (a : List Char) (h : '\n' ∉ a) : splitOnNl a = [a] := by
  induction a with
  | nil => rfl
  | cons c cs ih =>
    have hc : ¬(c = '\n') := fun hcc => h (hcc ▸ List.mem_cons_self c cs)
    have hcs : '\n' ∉ cs := fun hm => h (List.mem_cons_of_mem c hm)
    simp [splitOnNl, hc, ih hcs]

theorem splitOnNl_append (a b : List Char) (h : '\n' ∉ a) :
    splitOnNl (a ++ '\n' :: b) = a :: splitOnNl b := by
  induction a with
  | nil => simp [splitOnNl]
  | cons c cs ih =>
    have hc : ¬(c = '\n') := fun hcc => h (hcc ▸ List.mem_cons_self c cs)
    have hcs : '\n' ∉ cs := fun hm => h (List.mem_cons_of_mem c hm)
    simp [splitOnNl, hc, ih hcs]

/-- C5 (counterexample): the reader does not de-duplicate — a lock file
listing the same specifier twice reads to a list with a repeated
element. -/
theorem read_requirements_dedup_refuted :
    ¬ (∀ (fs : FS) (p : String) (l : List String),
        read_requirements (fun s => s) fs 1 2 p true = .ok l → l.Nodup) := by
  intro h
  have := h (fun q => if q = "d.txt" then some "foo==1\nfoo==1\n" else none)
    "d.txt" ["foo==1", "foo==1"] (by decide)
  exact absurd this (by decide)

/-- C5 (amended).  The reader returns the flat list of specifiers in file
order, preserving duplicates: a file consisting of the same plain
specifier line twice reads to that specifier repeated twice. -/
theorem read_requirements_preserves_duplicates (hashFn : String → String) (fs : FS)
    (hashFuel fuel : Nat) (p spec : String)
    (hp : fs p = some (spec ++ "\n" ++ spec))
    (hnl : '\n' ∉ spec.data)
    (hplain : pyStripCh (beforeHashCh spec.data) = spec.data)
    (hnr : strStartsWithCh ("-r ".data) spec.data = false)
    (hne : spec.data ≠ []) :
    read_requirements hashFn fs hashFuel (fuel + 1) p false = .ok [spec, spec] := by
  rw [read_succ_nocheck hashFn fs hashFuel fuel p (spec ++ "\n" ++ spec) hp]
  have hdata : (spec ++ "\n" ++ spec).data = spec.data ++ '\n' :: spec.data := by
    simp [String.data_append]
  rw [hdata, splitOnNl_append spec.data spec.data hnl, splitOnNl_nlfree spec.data hnl]
  rw [List.foldlM_cons]
  simp only [hplain, hnr, Bool.false_eq_true, if_false, hne, if_neg hne]
  simp only [ebind_ok]
  rw [List.foldlM_cons]
  simp only [hplain, hnr, Bool.false_eq_true, if_false, hne, if_neg hne]
  simp only [ebind_ok, List.foldlM_nil]
  rfl

/-- Witness for C5's amended statement at a concrete duplicate input. -/
theorem read_requirements_preserves_duplicates_witness :
    read_requirements (fun s => s)
      (fun q => if q = "d.txt" then some "foo==1.0\nfoo==1.0" else none)
      1 1 "d.txt" false = .ok ["foo==1.0", "foo==1.0"] := by
  exact read_requirements_preserves_duplicates (fun s => s) _ 1 0 "d.txt" "foo==1.0"
    (by decide) (by decide) (by decide) (by decide) (by decide)

/-! ### Frame reasoning for the hasher -/

theorem collectPaths_succ_some (fs : FS) (fuel : Nat) (p c : String) (hp : fs p = some c) :
    collectPaths fs (fuel + 1) p =
      match (includesOf c).mapM'
          (fun fn => collectPaths fs fuel (joinPath (parentDir p) fn)) with
      | .error e => .error e
      | .ok subs => .ok (p :: subs.flatten) := by
  rw [List.mapM'_eq_mapM]
  simp only [collectPaths, hp]

theorem collectPaths_succ_none (fs : FS) (fuel : Nat) (p : String) (hp : fs p = none) :
    collectPaths fs (fuel + 1) p = .error (.fileNotFound p) := by
  simp only [collectPaths, hp]

theorem collect_ok_some (fs : FS) (fuel : Nat) (p : String) (cs : List String)
    (h : _collect_all_input_files_content fs fuel p = .ok cs) : ∃ c, fs p = some c := by
  cases fuel with
  | zero => exact absurd h (by simp [_collect_all_input_files_content])
  | succ fuel =>
    rcases hp : fs p with _ | c
    · rw [collect_succ_none fs fuel p hp] at h
      exact absurd h (by simp)
    · exact ⟨c, rfl⟩

/-- The hasher reads exactly the paths reported by `collectPaths`: any two
filesystems agreeing on those paths produce the same collection (and the
same path list). -/
theorem collect_frame (fs fs' : FS) : ∀ (fuel : Nat) (p : String) (ps : List String),
    collectPaths fs fuel p = .ok ps → (∀ q ∈ ps, fs' q = fs q) →
    _collect_all_input_files_content fs' fuel p = _collect_all_input_files_content fs fuel p ∧
    collectPaths fs' fuel p = .ok ps := by
  intro fuel
  induction fuel with
  | zero =>
    intro p ps h
    exact absurd h (by simp [collectPaths])
  | succ fuel ih =>
    intro p ps h hagree
    rcases hp : fs p with _ | c
    · rw [collectPaths_succ_none fs fuel p hp] at h
      exact absurd h (by simp)
    · rw [collectPaths_succ_some fs fuel p c hp] at h
      rcases hm : (includesOf c).mapM'
          (fun fn => collectPaths fs fuel (joinPath (parentDir p) fn)) with e | subs
      · rw [hm] at h; exact absurd h (by simp)
      · rw [hm] at h
        have hps : p :: subs.flatten = ps := by simpa using h
        subst hps
        have inner : ∀ (l : List String) (subsl : List (List String)),
            l.mapM' (fun fn => collectPaths fs fuel (joinPath (parentDir p) fn)) = .ok subsl →
            (∀ q ∈ subsl.flatten, fs' q = fs q) →
            l.mapM' (fun fn => collectPaths fs' fuel (joinPath (parentDir p) fn)) = .ok subsl ∧
            l.mapM' (fun fn =>
                _collect_all_input_files_content fs' fuel (joinPath (parentDir p) fn)) =
              l.mapM' (fun fn =>
                _collect_all_input_files_content fs fuel (joinPath (parentDir p) fn)) := by
          intro l
          induction l with
          | nil => intro subsl hmm _; exact ⟨hmm, rfl⟩
          | cons fn l' ihl =>
            intro subsl hmm hag
            rw [List.mapM'_cons] at hmm
            rcases h1 : collectPaths fs fuel (joinPath (parentDir p) fn) with e | s₁
            · rw [h1, ebind_err] at hmm; exact absurd hmm (by simp)
            · rw [h1, ebind_ok] at hmm
              rcases h2 : l'.mapM'
                  (fun fn => collectPaths fs fuel (joinPath (parentDir p) fn)) with e | subs'
              · rw [h2, ebind_err] at hmm; exact absurd hmm (by simp)
              · rw [h2, ebind_ok, epure] at hmm
                have hsubsl : s₁ :: subs' = subsl := by simpa using hmm
                subst hsubsl
                have hag1 : ∀ q ∈ s₁, fs' q = fs q := fun q hq => hag q (by simp [hq])
                have hag2 : ∀ q ∈ subs'.flatten, fs' q = fs q := fun q hq =>
                  hag q (by simp [hq])
                have hfr := ih (joinPath (parentDir p) fn) s₁ h1 hag1
                have hrest := ihl subs' h2 hag2
                constructor
                · rw [List.mapM'_cons, hfr.2, ebind_ok, hrest.1, ebind_ok, epure]
                · rw [List.mapM'_cons, List.mapM'_cons, hfr.1, hrest.2]
        have hp' : fs' p = some c := by
          rw [hagree p (by simp), hp]
        have hflat : ∀ q ∈ subs.flatten, fs' q = fs q := fun q hq =>
          hagree q (by simp [hq])
        have hin := inner (includesOf c) subs hm hflat
        constructor
        · rw [collect_succ_some fs' fuel p c hp', collect_succ_some fs fuel p c hp, hin.2]
        · rw [collectPaths_succ_some fs' fuel p c hp', hin.1]

theorem compute_congr (hashFn : String → String) (fs fs' : FS) (fuel : Nat) (p : String)
    (h : _collect_all_input_files_content fs' fuel p =
         _collect_all_input_files_content fs fuel p) :
    compute_requirements_in_hash hashFn fs' fuel p =
      compute_requirements_in_hash hashFn fs fuel p := by
  unfold compute_requirements_in_hash
  rw [h]

theorem compute_ok_collect (hashFn : String → String) (fs : FS) (fuel : Nat) (p h : String)
    (hc : compute_requirements_in_hash hashFn fs fuel p = .ok h) :
    ∃ cs, _collect_all_input_files_content fs fuel p = .ok cs := by
  unfold compute_requirements_in_hash at hc
  rcases hcol : _collect_all_input_files_content fs fuel p with e | cs
  · rw [hcol] at hc; exact absurd hc (by simp)
  · exact ⟨cs, rfl⟩

theorem check_eval (hashFn : String → String) (fs : FS) (fuel : Nat) (p c tc h1 : String)
    (hin : fs (withSuffix p ".in") = some c) (htxt : fs (withSuffix p ".txt") = some tc)
    (hcomp : compute_requirements_in_hash hashFn fs fuel (withSuffix p ".in") = .ok h1) :
    check_requirements_needs_recompile hashFn fs fuel p =
      if strContains tc h1 then .ok (false, [])
      else .ok (true, ["File " ++ withSuffix p ".txt" ++
        " needs to be recompiled with \x27bigflow build-requirements\x27 command"]) := by
  simp only [check_requirements_needs_recompile, hin, htxt, hcomp]

/-- C2.  Freshness round trip: after a successful non-dry-run
`pip_compile` (whose fingerprint read set avoids the temporary and lock
files), the staleness check reports fresh; and after overwriting the
`.in` file so that the recomputed fingerprint no longer occurs in the lock
file's text (the collision-freedom assumption on SHA-256), the check
reports stale with the remediation warning. -/
theorem pip_compile_freshness_round_trip (r : Resolver) (hashFn : String → String)
    (fuel : Nat) (tmp : String) (fs : FS) (req : String) (o : PipOpts) (ps : List String)
    (hdry : o.dry_run = false)
    (hok : (pip_compile r hashFn fuel tmp fs req o).2 = .ok ())
    (hps : collectPaths (pip_compile r hashFn fuel tmp fs req o).1 fuel
      (withSuffix req ".in") = .ok ps)
    (htxtps : withSuffix req ".txt" ∉ ps) :
    check_requirements_needs_recompile hashFn (pip_compile r hashFn fuel tmp fs req o).1
        fuel req = .ok (false, []) ∧
    (∀ (c' : String) (cs2 : List String) (T : String),
       (pip_compile r hashFn fuel tmp fs req o).1 (withSuffix req ".txt") = some T →
       _collect_all_input_files_content
           (fsSet (pip_compile r hashFn fuel tmp fs req o).1 (withSuffix req ".in") c')
           fuel (withSuffix req ".in") = .ok cs2 →
       strContains T ("sha256:" ++ hashFn (concatAll cs2)) = false →
       check_requirements_needs_recompile hashFn
           (fsSet (pip_compile r hashFn fuel tmp fs req o).1 (withSuffix req ".in") c')
           fuel req =
         .ok (true, ["File " ++ withSuffix req ".txt" ++
           " needs to be recompiled with \x27bigflow build-requirements\x27 command"])) := by
  rcases pip_compile_cases r hashFn fuel tmp fs req o with
    ⟨e, hr, heq⟩ | ⟨out, hr, hdry', heq⟩ | ⟨out, hr, hdry', hrest⟩
  · rw [heq] at hok; exact absurd hok (by simp)
  · rw [hdry'] at hdry; exact absurd hdry (by simp)
  rcases hrest with ⟨e, hcomp, heq⟩ | ⟨hsh, hcomp, heq⟩
  · rw [heq] at hok; exact absurd hok (by simp)
  have h1 : (pip_compile r hashFn fuel tmp fs req o).1 =
      fsSet (fsSet (pip_compile_seed fs tmp req o.rebuild) tmp out) (withSuffix req ".txt")
        (pipHeader hsh (withSuffix req ".in") ++ out) := by rw [heq]
  rw [h1] at hps ⊢
  have hagree : ∀ q ∈ ps,
      fsSet (pip_compile_seed fs tmp req o.rebuild) tmp out q =
      fsSet (fsSet (pip_compile_seed fs tmp req o.rebuild) tmp out) (withSuffix req ".txt")
        (pipHeader hsh (withSuffix req ".in") ++ out) q := by
    intro q hq
    refine (fsSet_other _ _ _ q (fun hqt => htxtps ?_)).symm
    rw [← hqt]
    exact hq
  have hfr := collect_frame
    (fsSet (fsSet (pip_compile_seed fs tmp req o.rebuild) tmp out) (withSuffix req ".txt")
      (pipHeader hsh (withSuffix req ".in") ++ out))
    (fsSet (pip_compile_seed fs tmp req o.rebuild) tmp out)
    fuel (withSuffix req ".in") ps hps hagree
  have hcompFin : compute_requirements_in_hash hashFn
      (fsSet (fsSet (pip_compile_seed fs tmp req o.rebuild) tmp out) (withSuffix req ".txt")
        (pipHeader hsh (withSuffix req ".in") ++ out))
      fuel (withSuffix req ".in") = .ok hsh :=
    (compute_congr hashFn _ _ fuel (withSuffix req ".in") hfr.1).symm.trans hcomp
  obtain ⟨cs3, hcol3⟩ := compute_ok_collect hashFn _ fuel (withSuffix req ".in") hsh hcomp
  obtain ⟨c, hc3⟩ := collect_ok_some _ fuel (withSuffix req ".in") cs3 hcol3
  have hFin_tin : fsSet (fsSet (pip_compile_seed fs tmp req o.rebuild) tmp out)
      (withSuffix req ".txt") (pipHeader hsh (withSuffix req ".in") ++ out)
      (withSuffix req ".in") = some c := by
    rw [fsSet_other _ _ _ _ (withSuffix_in_ne_txt req)]
    exact hc3
  have hFin_txt : fsSet (fsSet (pip_compile_seed fs tmp req o.rebuild) tmp out)
      (withSuffix req ".txt") (pipHeader hsh (withSuffix req ".in") ++ out)
      (withSuffix req ".txt") =
      some (pipHeader hsh (withSuffix req ".in") ++ out) := fsSet_same _ _ _
  have hsubT : strContains (pipHeader hsh (withSuffix req ".in") ++ out) hsh = true := by
    have hT : pipHeader hsh (withSuffix req ".in") ++ out =
        "# *** autogenerated: don\x27t edit ***\n# $source-hash: " ++ hsh ++
          ("\n# $source-file: " ++ withSuffix req ".in" ++
           "\n#\n# run \x27bigflow build-requirements " ++ withSuffix req ".in" ++
           "\x27 to update this file\n\n" ++ out) := by
      simp [pipHeader, String.append_assoc]
    rw [hT]
    exact strContains_mid _ hsh _
  constructor
  · rw [check_eval hashFn _ fuel req c (pipHeader hsh (withSuffix req ".in") ++ out) hsh
      hFin_tin hFin_txt hcompFin, hsubT]
    rfl
  · intro c' cs2 T hT hcol2 hns
    have hTT : pipHeader hsh (withSuffix req ".in") ++ out = T := by
      rw [hFin_txt] at hT
      exact Option.some.inj hT
    have hMut_tin : fsSet (fsSet (fsSet (pip_compile_seed fs tmp req o.rebuild) tmp out)
        (withSuffix req ".txt") (pipHeader hsh (withSuffix req ".in") ++ out))
        (withSuffix req ".in") c' (withSuffix req ".in") = some c' := fsSet_same _ _ _
    have hMut_txt : fsSet (fsSet (fsSet (pip_compile_seed fs tmp req o.rebuild) tmp out)
        (withSuffix req ".txt") (pipHeader hsh (withSuffix req ".in") ++ out))
        (withSuffix req ".in") c' (withSuffix req ".txt") = some T := by
      rw [fsSet_other _ _ _ _ (Ne.symm (withSuffix_in_ne_txt req))]
      rw [hFin_txt, hTT]
    have hMut_comp : compute_requirements_in_hash hashFn
        (fsSet (fsSet (fsSet (pip_compile_seed fs tmp req o.rebuild) tmp out)
          (withSuffix req ".txt") (pipHeader hsh (withSuffix req ".in") ++ out))
          (withSuffix req ".in") c') fuel (withSuffix req ".in") =
        .ok ("sha256:" ++ hashFn (concatAll cs2)) := by
      unfold compute_requirements_in_hash
      rw [hcol2]
    rw [check_eval hashFn _ fuel req c' T ("sha256:" ++ hashFn (concatAll cs2))
      hMut_tin hMut_txt hMut_comp, hns]
    rfl

set_option maxRecDepth 4000 in
/-- Witness for C2: a concrete compile followed by a byte mutation of the
source file flips the staleness check from fresh to stale. -/
theorem pip_compile_freshness_round_trip_witness :
    check_requirements_needs_recompile (fun s => s)
        (pip_compile (fun _ _ => .ok "numpy==1.2\n") (fun s => s) 2 "tmp0"
          (fun q => if q = "r.in" then some "numpy==1\n" else none) "r" {}).1 2 "r"
      = .ok (false, []) ∧
    check_requirements_needs_recompile (fun s => s)
        (fsSet (pip_compile (fun _ _ => .ok "numpy==1.2\n") (fun s => s) 2 "tmp0"
          (fun q => if q = "r.in" then some "numpy==1\n" else none) "r" {}).1
          "r.in" "numpy==2\n") 2 "r"
      = .ok (true, ["File r.txt needs to be recompiled with \x27bigflow build-requirements\x27 command"]) := by
  have H := pip_compile_freshness_round_trip (fun _ _ => .ok "numpy==1.2\n") (fun s => s)
    2 "tmp0" (fun q => if q = "r.in" then some "numpy==1\n" else none) "r" {} ["r.in"]
    rfl (by decide) (by decide) (by decide)
  refine ⟨H.1, ?_⟩
  have H2 := H.2 "numpy==2\n" ["numpy==2\n"]
    "# *** autogenerated: don\x27t edit ***\n# $source-hash: sha256:numpy==1\n\n# $source-file: r.in\n#\n# run \x27bigflow build-requirements r.in\x27 to update this file\n\nnumpy==1.2\n"
    (by decide) (by decide) (by decide)
  have hws : withSuffix "r" ".txt" = "r.txt" := by decide
  rw [hws] at H2
  exact H2

/-! ### The incremental pin loop -/

theorem badOf_cons (p : String) (ps : List String) (b : Bool) (bs : List Bool) :
    badOf (p :: ps) (b :: bs) = (if b then [] else [p]) ++ badOf ps bs := by
  cases b <;> simp [badOf]

theorem allOf_cons (p : String) (ps : List String) (b : Bool) (bs : List Bool) :
    allOf (p :: ps) (b :: bs) = decorPin p b :: allOf ps bs := by
  simp [allOf]

/-- `pip_compile_dry` specialized to the option literal used by the pin
loop. -/
theorem pip_compile_dryloop (r : Resolver) (hashFn : String → String) (fuel : Nat)
    (tmp : String) (fs : FS) (req : String) :
    pip_compile r hashFn fuel tmp fs req { dry_run := true } =
      (pip_compile_seed fs tmp req false,
       match r (pip_compile_seed fs tmp req false)
           (pipCompileCmd { dry_run := true } tmp (withSuffix req ".in")) with
       | .ok _ => .ok ()
       | .error _ => .error .calledProcessError) := by
  simpa using pip_compile_dry r hashFn fuel tmp fs req { dry_run := true } rfl

/-- The traced loop projects to the code's loop. -/
theorem addPinsGoTr_fst (r : Resolver) (hashFn : String → String) (fuel : Nat)
    (tmpNames : Nat → String) (pfi ri : String) :
    ∀ (pins : List String) (i : Nat) (fs : FS) (bad all : List String),
      (addPinsGoTr r hashFn fuel tmpNames pfi ri i fs bad all pins).1 =
        addPinsGo r hashFn fuel tmpNames pfi ri i fs bad all pins := by
  intro pins
  induction pins with
  | nil => intro i fs bad all; rfl
  | cons pin rest ih =>
    intro i fs bad all
    simp only [addPinsGo, addPinsGoTr]
    rcases hpc : pip_compile r hashFn fuel (tmpNames i)
        (fsSet fs pfi (joinNL ("# *** autogenerated - partial! ***" ::
          (all ++ [pin, "# ..."])))) ri { dry_run := true } with ⟨fs2, outc⟩
    rcases outc with e | u
    · cases e <;> simp [ih]
    · simp [ih]
/-- Full invariant of the traced pin loop: the result collects every
decision in order (never propagating a resolver conflict); there is one
resolver attempt per candidate; and at each attempt the pins file just
written — and present in the filesystem handed to the dry-run compile —
consists of the partial banner, the decorated decisions of all earlier
candidates, the candidate under test, and the `# ...` trailer, with a
candidate accepted exactly when its dry-run compile succeeded. -/
theorem addPins_spec (r : Resolver) (hashFn : String → String) (fuel : Nat)
    (tmpNames : Nat → String) (pfi ri : String) :
    ∀ (pins : List String) (i : Nat) (fs : FS) (bad all : List String)
      (res : Except PipError (FS × List String × List String)) (tr : List PinAttempt),
      addPinsGoTr r hashFn fuel tmpNames pfi ri i fs bad all pins = (res, tr) →
      (∃ fsO, res = .ok (fsO, bad ++ badOf pins (tr.map PinAttempt.accepted),
                              all ++ allOf pins (tr.map PinAttempt.accepted))) ∧
      tr.length = pins.length ∧
      (∀ k, k < tr.length →
        (tr.getD k default).idx = i + k ∧
        (tr.getD k default).pin = pins.getD k "" ∧
        (tr.getD k default).history =
          all ++ (tr.take k).map (fun b => decorPin b.pin b.accepted) ∧
        (tr.getD k default).written =
          joinNL ("# *** autogenerated - partial! ***" ::
            ((tr.getD k default).history ++ [(tr.getD k default).pin, "# ..."])) ∧
        (tr.getD k default).fsAt pfi = some (tr.getD k default).written ∧
        ((tr.getD k default).accepted = true ↔
          (pip_compile r hashFn fuel (tmpNames ((tr.getD k default).idx))
            ((tr.getD k default).fsAt) ri { dry_run := true }).2 = .ok ())) := by
  intro pins
  induction pins with
  | nil =>
    intro i fs bad all res tr heq
    simp only [addPinsGoTr] at heq
    injection heq with h1 h2
    subst h1; subst h2
    refine ⟨⟨fs, by simp [badOf, allOf]⟩, rfl, ?_⟩
    intro k hk
    simp at hk
  | cons pin rest ih =>
    intro i fs bad all res tr heq
    simp only [addPinsGoTr] at heq
    rw [pip_compile_dryloop] at heq
    rcases hrr : r (pip_compile_seed
          (fsSet fs pfi (joinNL ("# *** autogenerated - partial! ***" ::
            (all ++ [pin, "# ..."])))) (tmpNames i) ri false)
        (pipCompileCmd { dry_run := true } (tmpNames i) (withSuffix ri ".in")) with e | out
    · rw [hrr] at heq
      simp only at heq
      rcases hrec : addPinsGoTr r hashFn fuel tmpNames pfi ri (i + 1)
          (pip_compile_seed (fsSet fs pfi (joinNL ("# *** autogenerated - partial! ***" ::
            (all ++ [pin, "# ..."])))) (tmpNames i) ri false)
          (bad ++ [pin]) (all ++ ["## " ++ pin ++ "  # CONFLICT"]) rest with ⟨res', tr'⟩
      rw [hrec] at heq
      injection heq with h1 h2
      subst h1; subst h2
      dsimp only
      obtain ⟨⟨fsO, hres⟩, hlen, hk⟩ := ih (i + 1) _ (bad ++ [pin])
        (all ++ ["## " ++ pin ++ "  # CONFLICT"]) res' tr' hrec
      refine ⟨⟨fsO, ?_⟩, by simp [hlen], ?_⟩
      · rw [hres]
        simp [badOf_cons, allOf_cons, decorPin]
      · intro k hk'
        cases k with
        | zero =>
          simp only [List.getD_cons_zero]
          refine ⟨by simp, by simp, by simp, by simp, by simp [fsSet], ?_⟩
          rw [pip_compile_dryloop, hrr]
          simp
        | succ k =>
          have hk'' : k < tr'.length := by
            simp at hk'
            omega
          obtain ⟨hidx, hpin, hhist, hwrit, hfsat, hacc⟩ := hk k hk''
          refine ⟨?_, ?_, ?_, ?_, ?_, ?_⟩
          · simp only [List.getD_cons_succ, hidx]
            omega
          · simp only [List.getD_cons_succ]
            exact hpin
          · simp only [List.getD_cons_succ, hhist, List.take_succ_cons, List.map_cons]
            simp [decorPin, List.append_assoc]
          · simp only [List.getD_cons_succ, hwrit]
          · simp only [List.getD_cons_succ, hfsat]
          · simp only [List.getD_cons_succ, hacc]
    · rw [hrr] at heq
      simp only at heq
      rcases hrec : addPinsGoTr r hashFn fuel tmpNames pfi ri (i + 1)
          (pip_compile_seed (fsSet fs pfi (joinNL ("# *** autogenerated - partial! ***" ::
            (all ++ [pin, "# ..."])))) (tmpNames i) ri false)
          bad (all ++ [pin]) rest with ⟨res', tr'⟩
      rw [hrec] at heq
      injection heq with h1 h2
      subst h1; subst h2
      dsimp only
      obtain ⟨⟨fsO, hres⟩, hlen, hk⟩ := ih (i + 1) _ bad (all ++ [pin]) res' tr' hrec
      refine ⟨⟨fsO, ?_⟩, by simp [hlen], ?_⟩
      · rw [hres]
        simp [badOf_cons, allOf_cons, decorPin]
      · intro k hk'
        cases k with
        | zero =>
          simp only [List.getD_cons_zero]
          refine ⟨by simp, by simp, by simp, by simp, by simp [fsSet], ?_⟩
          rw [pip_compile_dryloop, hrr]
          simp
        | succ k =>
          have hk'' : k < tr'.length := by
            simp at hk'
            omega
          obtain ⟨hidx, hpin, hhist, hwrit, hfsat, hacc⟩ := hk k hk''
          refine ⟨?_, ?_, ?_, ?_, ?_, ?_⟩
          · simp only [List.getD_cons_succ, hidx]
            omega
          · simp only [List.getD_cons_succ]
            exact hpin
          · simp only [List.getD_cons_succ, hhist, List.take_succ_cons, List.map_cons]
            simp [decorPin, List.append_assoc]
          · simp only [List.getD_cons_succ, hwrit]
          · simp only [List.getD_cons_succ, hfsat]
          · simp only [List.getD_cons_succ, hacc]

/-- C7.  Pin discovery never propagates a resolver failure: the loop
always returns `.ok`; its decision list decorates every candidate in input
order — plainly when accepted, as `## <pin>  # CONFLICT` when rejected —
its rejected list collects exactly the rejected candidates in order, and a
candidate is accepted exactly when its dry-run compile succeeded. -/
theorem try_add_pins_conflict_handling (r : Resolver) (hashFn : String → String)
    (fuel : Nat) (tmpNames : Nat → String) (fs : FS) (pfi ri : String)
    (pins : List String) :
    ∃ fsO,
      _try_incrementally_add_pins r hashFn fuel tmpNames fs pfi ri pins =
        .ok (fsO,
          badOf pins ((addPinsGoTr r hashFn fuel tmpNames pfi ri 0 fs [] [] pins).2.map
            PinAttempt.accepted),
          allOf pins ((addPinsGoTr r hashFn fuel tmpNames pfi ri 0 fs [] [] pins).2.map
            PinAttempt.accepted)) ∧
      (addPinsGoTr r hashFn fuel tmpNames pfi ri 0 fs [] [] pins).2.length = pins.length ∧
      (∀ k, k < pins.length →
        (((addPinsGoTr r hashFn fuel tmpNames pfi ri 0 fs [] [] pins).2.getD k
            default).accepted = true ↔
          (pip_compile r hashFn fuel (tmpNames k)
            (((addPinsGoTr r hashFn fuel tmpNames pfi ri 0 fs [] [] pins).2.getD k
              default).fsAt) ri { dry_run := true }).2 = .ok ())) := by
  obtain ⟨⟨fsO, hres⟩, hlen, hk⟩ := addPins_spec r hashFn fuel tmpNames pfi ri pins 0 fs [] []
    (addPinsGoTr r hashFn fuel tmpNames pfi ri 0 fs [] [] pins).1
    (addPinsGoTr r hashFn fuel tmpNames pfi ri 0 fs [] [] pins).2 rfl
  refine ⟨fsO, ?_, hlen, ?_⟩
  · unfold _try_incrementally_add_pins
    rw [← addPinsGoTr_fst, hres]
    simp
  · intro k hkp
    have hk2 : k < (addPinsGoTr r hashFn fuel tmpNames pfi ri 0 fs [] [] pins).2.length := by
      rw [hlen]; exact hkp
    obtain ⟨hidx, _, _, _, _, hacc⟩ := hk k hk2
    rw [hidx, Nat.zero_add] at hacc
    exact hacc

/-- C8.  Loop invariant: the traced loop projects to the code's loop, one
resolver attempt is made per candidate, and at attempt `k` the pins file
on disk (in the filesystem handed to the dry-run compile) holds the
partial banner, every decision for candidates before `k` — accepted ones
plainly, rejected ones commented with the CONFLICT marker — candidate `k`
itself, and the `# ...` trailer. -/
theorem try_add_pins_file_invariant (r : Resolver) (hashFn : String → String)
    (fuel : Nat) (tmpNames : Nat → String) (fs : FS) (pfi ri : String)
    (pins : List String) :
    (addPinsGoTr r hashFn fuel tmpNames pfi ri 0 fs [] [] pins).1 =
      _try_incrementally_add_pins r hashFn fuel tmpNames fs pfi ri pins ∧
    (addPinsGoTr r hashFn fuel tmpNames pfi ri 0 fs [] [] pins).2.length = pins.length ∧
    (∀ k, k < (addPinsGoTr r hashFn fuel tmpNames pfi ri 0 fs [] [] pins).2.length →
      ((addPinsGoTr r hashFn fuel tmpNames pfi ri 0 fs [] [] pins).2.getD k default).pin =
        pins.getD k "" ∧
      ((addPinsGoTr r hashFn fuel tmpNames pfi ri 0 fs [] [] pins).2.getD k
          default).history =
        (((addPinsGoTr r hashFn fuel tmpNames pfi ri 0 fs [] [] pins).2.take k).map
          (fun b => decorPin b.pin b.accepted)) ∧
      ((addPinsGoTr r hashFn fuel tmpNames pfi ri 0 fs [] [] pins).2.getD k
          default).written =
        joinNL ("# *** autogenerated - partial! ***" ::
          (((addPinsGoTr r hashFn fuel tmpNames pfi ri 0 fs [] [] pins).2.getD k
              default).history ++
           [((addPinsGoTr r hashFn fuel tmpNames pfi ri 0 fs [] [] pins).2.getD k
              default).pin, "# ..."])) ∧
      ((addPinsGoTr r hashFn fuel tmpNames pfi ri 0 fs [] [] pins).2.getD k
          default).fsAt pfi =
        some ((addPinsGoTr r hashFn fuel tmpNames pfi ri 0 fs [] [] pins).2.getD k
          default).written) := by
  obtain ⟨⟨fsO, hres⟩, hlen, hk⟩ := addPins_spec r hashFn fuel tmpNames pfi ri pins 0 fs [] []
    (addPinsGoTr r hashFn fuel tmpNames pfi ri 0 fs [] [] pins).1
    (addPinsGoTr r hashFn fuel tmpNames pfi ri 0 fs [] [] pins).2 rfl
  refine ⟨(addPinsGoTr_fst r hashFn fuel tmpNames pfi ri pins 0 fs [] []).trans rfl, hlen, ?_⟩
  intro k hk2
  obtain ⟨_, hpin, hhist, hwrit, hfsat, _⟩ := hk k hk2
  exact ⟨hpin, by simpa using hhist, hwrit, hfsat⟩

/-- The filesystem of the concrete pin-discovery scenario used in the
witnesses. -/
def pinScenarioFs : FS := fun q => if q = "r.in" then some "base\n" else none

/-- A resolver that conflicts exactly when the pins file proposes `q==2`
as the active candidate. -/
def pinScenarioRes : Resolver := fun fsx _ =>
  match fsx "pins.in" with
  | some t => if strContains t "q==2\n# ..." then .error () else .ok "res"
  | none => .ok "res"

/-- Fresh temporary file names for the scenario. -/
def pinScenarioTmps : Nat → String := fun i => if i = 0 then "t0" else "t1"

/-- Witness for C7: with candidates `p==1` (compatible) and `q==2`
(conflicting), the loop returns the rejected list `[q==2]` and the
decision list `[p==1, ## q==2  # CONFLICT]`, and candidate 0 is accepted
because its dry run succeeded. -/
theorem try_add_pins_conflict_handling_witness :
    (match _try_incrementally_add_pins pinScenarioRes (fun s => s) 2 pinScenarioTmps
        pinScenarioFs "pins.in" "r.in" ["p==1", "q==2"] with
      | .ok (_, bad, all) => some (bad, all)
      | .error _ => none) = some (["q==2"], ["p==1", "## q==2  # CONFLICT"]) ∧
    ((addPinsGoTr pinScenarioRes (fun s => s) 2 pinScenarioTmps "pins.in" "r.in" 0
        pinScenarioFs [] [] ["p==1", "q==2"]).2.getD 0 default).accepted = true := by
  obtain ⟨fsO, hres, hlen, hk⟩ := try_add_pins_conflict_handling pinScenarioRes (fun s => s)
    2 pinScenarioTmps pinScenarioFs "pins.in" "r.in" ["p==1", "q==2"]
  constructor
  · rw [hres]
    exact congrArg some (by decide)
  · exact (hk 0 (by decide)).mpr (by decide)

/-- Witness for C8: at the second attempt the pins file on disk holds the
banner, the accepted `p==1`, the candidate `q==2` and the trailer. -/
theorem try_add_pins_file_invariant_witness :
    ((addPinsGoTr pinScenarioRes (fun s => s) 2 pinScenarioTmps "pins.in" "r.in" 0
        pinScenarioFs [] [] ["p==1", "q==2"]).2.getD 1 default).written =
      "# *** autogenerated - partial! ***\np==1\nq==2\n# ..." ∧
    ((addPinsGoTr pinScenarioRes (fun s => s) 2 pinScenarioTmps "pins.in" "r.in" 0
        pinScenarioFs [] [] ["p==1", "q==2"]).2.getD 1 default).fsAt "pins.in" =
      some "# *** autogenerated - partial! ***\np==1\nq==2\n# ..." := by
  obtain ⟨hproj, hlen, hk⟩ := try_add_pins_file_invariant pinScenarioRes (fun s => s) 2
    pinScenarioTmps pinScenarioFs "pins.in" "r.in" ["p==1", "q==2"]
  obtain ⟨hpin, hhist, hwrit, hfsat⟩ := hk 1 (by decide)
  constructor
  · rw [hwrit]
    decide
  · rw [hfsat, hwrit]
    decide

/-- C10.  The hasher and the reader disagree on commented-out include
directives: for a source whose only `-r` occurs after a `#` (the line
`# -r b.in`), the fingerprint still follows `b.in` — failing with
file-not-found when it is missing and hashing its content when present —
whereas the reader skips the line entirely and returns a result
independent of `b.in`. -/
theorem hash_reader_comment_include_divergence (hashFn : String → String) (fs : FS)
    (hashFuel fuel : Nat) (ha : fs "a.in" = some "# -r b.in\nfoo==1\n") :
    (fs "b.in" = none →
       compute_requirements_in_hash hashFn fs (fuel + 2) "a.in" =
         .error (.fileNotFound "b.in")) ∧
    (∀ bs, _collect_all_input_files_content fs (fuel + 1) "b.in" = .ok bs →
       compute_requirements_in_hash hashFn fs (fuel + 2) "a.in" =
         .ok ("sha256:" ++ hashFn (concatAll ("# -r b.in\nfoo==1\n" :: bs)))) ∧
    read_requirements hashFn fs hashFuel (fuel + 1) "a.in" false = .ok ["foo==1"] := by
  have hinc : includesOf "# -r b.in\nfoo==1\n" = ["b.in"] := by decide
  have hjp : joinPath (parentDir "a.in") "b.in" = "b.in" := by decide
  refine ⟨?_, ?_, ?_⟩
  · intro hb
    unfold compute_requirements_in_hash
    rw [collect_succ_some fs (fuel + 1) "a.in" _ ha, hinc]
    rw [List.mapM'_cons]
    simp only [hjp, collect_succ_none fs fuel "b.in" hb, ebind_err, List.mapM'_nil]
  · intro bs hbs
    unfold compute_requirements_in_hash
    rw [collect_succ_some fs (fuel + 1) "a.in" _ ha, hinc]
    rw [List.mapM'_cons]
    simp only [hjp, hbs, ebind_ok, List.mapM'_nil, epure]
    simp [concatAll]
  · rw [read_succ_nocheck hashFn fs hashFuel fuel "a.in" _ ha]
    rfl

/-- Witness for C10: with `b.in` present, the fingerprint covers both
files while the reader returns only the active specifier. -/
theorem hash_reader_comment_include_divergence_witness :
    compute_requirements_in_hash (fun s => s)
        (fun q => if q = "a.in" then some "# -r b.in\nfoo==1\n"
                  else if q = "b.in" then some "bar==3\n" else none) 2 "a.in"
      = .ok "sha256:# -r b.in\nfoo==1\nbar==3\n" ∧
    read_requirements (fun s => s)
        (fun q => if q = "a.in" then some "# -r b.in\nfoo==1\n"
                  else if q = "b.in" then some "bar==3\n" else none) 0 1 "a.in" false
      = .ok ["foo==1"] := by
  have H := hash_reader_comment_include_divergence (fun s => s)
    (fun q => if q = "a.in" then some "# -r b.in\nfoo==1\n"
              else if q = "b.in" then some "bar==3\n" else none) 0 0 (by decide)
  exact ⟨(H.2.1 ["bar==3\n"] (by decide)).trans (by decide), H.2.2⟩

